import Mathlib

/-!
Shallow embedding of the client-side poll / reaction / notification
reconciliation logic of the plan-outings application.

Sources embedded:
* `src/components/PollMessage.tsx` — `handleVote` (lines 53-83),
  `handleChangeVote` (85-119), `getPercentage` (121-125),
  `getWinningOptionIndex` (137-142);
* `src/components/MessageReactions.tsx` — `handleReaction` (21-51);
* `src/components/Notifications.tsx` — the `onValue` feed construction
  (35-46), `markAsRead` (53-61), `unreadCount` (93).

Modelling conventions: JS strings are `String`; JS arrays are `List`;
the non-negative integer counter `totalVotes` is `Nat`; the parsed
instant `new Date(timestamp).getTime()` of an ISO-8601 timestamp string
is modelled directly as an integer field `timestampMs`; a Firebase node
that may be absent is `Option` (writing `null` deletes the node);
`Math.round` on non-negative values is `⌊q + 1/2⌋` over `ℚ`.
-/

namespace PlanOutings

/-- `interface PollOption` of PollMessage.tsx: `text: string; votes: string[]`. -/
structure PollOption where
  text : String
  votes : List String
  deriving Repr, DecidableEq

/-- `interface Poll` of PollMessage.tsx. -/
structure Poll where
  id : String
  question : String
  options : List PollOption
  createdBy : String
  createdAt : String
  totalVotes : Nat
  deriving Repr, DecidableEq

/-- Default used for out-of-range option access in statements (never hit
under the in-range hypotheses). -/
def emptyOption : PollOption := { text := "", votes := [] }

/-- The votes list of option `i` of poll `p`. -/
def optVotes (p : Poll) (i : Nat) : List String :=
  (p.options.getD i emptyOption).votes

/-- Embedding of `handleVote` (PollMessage.tsx 53-83): map over the options
with index, appending `user` to the chosen option's votes, then replace the
poll with `totalVotes` incremented (`(localPoll.totalVotes || 0) + 1`; the
`|| 0` fallback is the identity on `Nat`). -/
def vote (poll : Poll) (optionIndex : Nat) (user : String) : Poll :=
  let updatedOptions := poll.options.mapIdx (fun index option =>
    if index = optionIndex then
      { option with votes := option.votes ++ [user] }
    else
      option)
  { poll with options := updatedOptions, totalVotes := poll.totalVotes + 1 }

/-- Embedding of `handleChangeVote` (PollMessage.tsx 85-119): map over the
options with index; the option at `fromOptionIndex` (the component's
`selectedOption`) has `user` filtered out of its votes, the option at
`toOptionIndex` gets `user` appended, all others pass through. The two
source-level early returns make the `fromOptionIndex` branch take
precedence when the indices coincide. `totalVotes` is left unchanged. -/
def changeVote (poll : Poll) (fromOptionIndex toOptionIndex : Nat) (user : String) : Poll :=
  let updatedOptions := poll.options.mapIdx (fun index option =>
    if index = fromOptionIndex then
      { option with votes := option.votes.filter (fun uid => uid != user) }
    else if index = toOptionIndex then
      { option with votes := option.votes ++ [user] }
    else
      option)
  { poll with options := updatedOptions }

/-- `Math.round` on a non-negative rational: round half up. -/
def jsRound (q : ℚ) : ℤ := ⌊q + 1 / 2⌋

/-- Embedding of `getPercentage` (PollMessage.tsx 121-125), parameterised by
the vote count of the option and the poll's `totalVotes` (read in the source
from `localPoll?.totalVotes || 0`): guard `totalVotes === 0` returns `0`,
otherwise `Math.round((votes / totalVotes) * 100)`. -/
def getPercentage (votes : Nat) (totalVotes : Nat) : ℤ :=
  if totalVotes = 0 then 0
  else jsRound ((votes : ℚ) / (totalVotes : ℚ) * 100)

/-- Modelled from the spec: "Percentage for an option =
`round(100 * votes.length / totalVotes)`, with `totalVotes == 0` defined as
`0%` for every option". Stated from the spec's wording, for comparison with
the source-derived `getPercentage`. -/
def specPercentage (votes : Nat) (totalVotes : Nat) : ℤ :=
  if totalVotes = 0 then 0
  else jsRound (100 * (votes : ℚ) / (totalVotes : ℚ))

/-- The `voteCounts` array of `getWinningOptionIndex` (PollMessage.tsx 139):
`safeOptions.map(opt => opt.votes?.length || 0)`. -/
def voteCounts (options : List PollOption) : List Nat :=
  options.map (fun opt => opt.votes.length)

/-- The `maxVotes` value of `getWinningOptionIndex` (PollMessage.tsx 140):
`Math.max(...voteCounts)` over the (nonempty at the call site) counts list;
the variadic maximum of a nonempty list of naturals is the left fold of
`Nat.max` from `0`. -/
def maxVotes (options : List PollOption) : Nat :=
  (voteCounts options).foldl Nat.max 0

/-- Embedding of `getWinningOptionIndex` (PollMessage.tsx 137-142),
parameterised by `safeOptions`: empty options give `-1`, otherwise
`voteCounts.indexOf(maxVotes)` (the first index holding the maximum). -/
def getWinningOptionIndex (options : List PollOption) : ℤ :=
  if options.length = 0 then -1
  else ((voteCounts options).indexOf (maxVotes options) : ℤ)

/-- The reactions node of one message: emoji key to the Firebase node at
`groupMessages/{groupId}/{messageId}/reactions/{emoji}` — `none` when the
key is absent (`snapshot.exists()` false), `some` the stored `string[]`
otherwise. -/
abbrev ReactionMap := String → Option (List String)

/-- Embedding of `handleReaction` (MessageReactions.tsx 21-51): read the
per-emoji node (absent reads as `[]`); if the user is already in the list,
filter the user out, otherwise append the user; write `null` (delete the
key) when the new list is empty, else write the new list. All other emoji
keys are untouched. -/
def toggle (reactions : ReactionMap) (emoji : String) (user : String) : ReactionMap :=
  let currentReactions := (reactions emoji).getD []
  let newReactions :=
    if currentReactions.contains user then
      currentReactions.filter (fun uid => uid != user)
    else
      currentReactions ++ [user]
  fun e =>
    if e = emoji then
      (if newReactions = [] then none else some newReactions)
    else
      reactions e

/-- Equality of reaction maps at the data-model level: the model declares
the per-emoji value a *set* of user ids (membership semantics only,
insertion order irrelevant), so two maps are equal when the same emoji keys
are present and each key's user set has the same members. -/
def ReactionMap.EquivSet (m1 m2 : ReactionMap) : Prop :=
  ∀ e, (m1 e).isSome = (m2 e).isSome ∧
    ∀ u, u ∈ (m1 e).getD [] ↔ u ∈ (m2 e).getD []

/-- The stored fields of one notification record (Notifications.tsx
`interface Notification` minus the `id` attached from the key; the
type-specific optional fields are irrelevant to the feed logic and the
ISO-8601 `timestamp` string is modelled by its parsed instant
`timestampMs = new Date(timestamp).getTime()`). -/
structure NotificationData where
  type : String
  groupId : String
  groupName : String
  message : String
  timestampMs : Int
  read : Bool
  deriving Repr, DecidableEq

/-- A feed entry: the record with its key attached, as built by
`{ id: key, ...data[key] }` (Notifications.tsx 39). -/
structure Notification where
  id : String
  type : String
  groupId : String
  groupName : String
  message : String
  timestampMs : Int
  read : Bool
  deriving Repr, DecidableEq

/-- Spread of the record with its key: `{ id: key, ...data[key] }`. -/
def withId (key : String) (d : NotificationData) : Notification :=
  { id := key, type := d.type, groupId := d.groupId, groupName := d.groupName,
    message := d.message, timestampMs := d.timestampMs, read := d.read }

/-- The sort comparator of Notifications.tsx line 40,
`(a, b) => new Date(b.timestamp).getTime() - new Date(a.timestamp).getTime()`,
as the corresponding total preorder: `a` may precede `b` iff the comparator
is non-positive, i.e. `b.timestampMs ≤ a.timestampMs`. -/
def notifLE (a b : Notification) : Bool :=
  decide (b.timestampMs ≤ a.timestampMs)

/-- Embedding of the feed construction inside the `onValue` subscription
(Notifications.tsx 35-46): the raw keyed map (as the association list in
key-enumeration order) is mapped to records with ids attached, then sorted
by the timestamp comparator. `Array.prototype.sort` is stable, and a stable
sort under a total preorder has a unique result, so it is modelled by
`List.mergeSort`. -/
def buildFeed (data : List (String × NotificationData)) : List Notification :=
  (data.map (fun kv => withId kv.1 kv.2)).mergeSort notifLE

/-- `unreadCount` (Notifications.tsx 93): `notifications.filter(n => !n.read).length`. -/
def unreadCount (notifications : List Notification) : Nat :=
  (notifications.filter (fun n => !n.read)).length

/-- Embedding of `markAsRead` (Notifications.tsx 53-61): write `true` to the
single leaf `notifications/{uid}/{notificationId}/read`; in the keyed store
this sets the `read` field of exactly the entry keyed `notificationId` and
touches nothing else. -/
def markAsRead (store : List (String × NotificationData)) (notificationId : String) :
    List (String × NotificationData) :=
  store.map (fun kv =>
    if kv.1 = notificationId then (kv.1, { kv.2 with read := true }) else kv)

/-! Helper lemmas about list access. -/

theorem getD_mapIdx {α : Type} (f : Nat → α → α) (l : List α) (i : Nat) (d : α)
    (h : i < l.length) : (l.mapIdx f).getD i d = f i (l.getD i d) := by
  simp [List.getD_eq_getElem?_getD, List.getElem?_eq_getElem h]

theorem getD_mem {α : Type} (l : List α) (i : Nat) (d : α)
    (h : i < l.length) : l.getD i d ∈ l := by
  rw [List.getD_eq_getElem?_getD, List.getElem?_eq_getElem h]
  exact List.getElem_mem h

/-- Claim C1: for a poll `p`, an in-range option index `i` and a user `u` that
appears in no option's votes, the poll returned by `vote p i u` has `u` in
option `i`'s votes and in no other option's votes. -/
theorem vote_first_vote_membership (p : Poll) (i : Nat) (u : String)
    (hi : i < p.options.length)
    (hu : ∀ opt ∈ p.options, u ∉ opt.votes) :
    u ∈ optVotes (vote p i u) i ∧
      ∀ j, j < p.options.length → j ≠ i → u ∉ optVotes (vote p i u) j := by
  constructor
  · simp only [optVotes, vote, getD_mapIdx _ _ _ _ hi]
    simp
  · intro j hj hne
    simp only [optVotes, vote, getD_mapIdx _ _ _ _ hj]
    simp [hne]
    exact hu _ (by simpa using getD_mem p.options j emptyOption hj)

/-- Concrete poll used in the C1 witness. -/
def pollW : Poll :=
  { id := "p1", question := "where to go",
    options := [{ text := "park", votes := [] }, { text := "cinema", votes := ["v1"] }],
    createdBy := "c", createdAt := "2024-01-01", totalVotes := 1 }

/-- Witness for C1 at a concrete poll: the hypotheses hold and the theorem
applies at option index `0` and user `u1`. -/
theorem vote_first_vote_membership_witness :
    (0 < pollW.options.length ∧ ∀ opt ∈ pollW.options, "u1" ∉ opt.votes) ∧
      ("u1" ∈ optVotes (vote pollW 0 "u1") 0 ∧
        ∀ j, j < pollW.options.length → j ≠ 0 → "u1" ∉ optVotes (vote pollW 0 "u1") j) :=
  ⟨⟨by decide, by decide⟩,
    vote_first_vote_membership pollW 0 "u1" (by decide) (by decide)⟩

/-- Concrete poll used for the C2 counterexample: user `u1` has voted for
option `0`. -/
def pollC : Poll :=
  { id := "p2", question := "when",
    options := [{ text := "mon", votes := ["u1"] }, { text := "tue", votes := [] }],
    createdBy := "c", createdAt := "2024-01-01", totalVotes := 1 }

/-- Counterexample to claim C2 as stated: with `fromOptionIndex =
toOptionIndex = 0`, `changeVote` does not append `u1` to option `0`'s votes
(the claim asserts `u1` is appended, hence a member); the remove branch takes
precedence and the vote is dropped entirely. -/
theorem changeVote_same_index_drops_vote :
    "u1" ∉ optVotes (changeVote pollC 0 0 "u1") 0 := by decide

/-- Claim C2 (amended): for in-range indices, when `fromOptionIndex ≠
toOptionIndex` the user is filtered out of the from-option's votes and
appended to the to-option's votes; when the two indices coincide the
from-branch takes precedence, so the user is only filtered out and not
re-appended. -/
theorem changeVote_moves_vote (p : Poll) (f t : Nat) (u : String)
    (hf : f < p.options.length) (ht : t < p.options.length) :
    (f ≠ t →
      optVotes (changeVote p f t u) f = (optVotes p f).filter (fun uid => uid != u) ∧
        optVotes (changeVote p f t u) t = optVotes p t ++ [u]) ∧
    (f = t →
      optVotes (changeVote p f t u) f = (optVotes p f).filter (fun uid => uid != u)) := by
  constructor
  · intro hne
    constructor
    · simp only [optVotes, changeVote, getD_mapIdx _ _ _ _ hf]
      simp
    · simp only [optVotes, changeVote, getD_mapIdx _ _ _ _ ht]
      simp [Ne.symm hne]
  · intro heq
    simp only [optVotes, changeVote, getD_mapIdx _ _ _ _ hf]
    simp [heq]

/-- Witness for the amended C2 on the concrete poll `pollC`: both the
distinct-index branch (moving `u1` from option `0` to option `1`) and the
equal-index branch (retracting `u1` from option `0`). -/
theorem changeVote_moves_vote_witness :
    (optVotes (changeVote pollC 0 1 "u1") 0 =
        (optVotes pollC 0).filter (fun uid => uid != "u1") ∧
      optVotes (changeVote pollC 0 1 "u1") 1 = optVotes pollC 1 ++ ["u1"]) ∧
    optVotes (changeVote pollC 0 0 "u1") 0 =
      (optVotes pollC 0).filter (fun uid => uid != "u1") :=
  ⟨(changeVote_moves_vote pollC 0 1 "u1" (by decide) (by decide)).1 (by decide),
    (changeVote_moves_vote pollC 0 0 "u1" (by decide) (by decide)).2 rfl⟩

/-- Claim C3: under the first-vote precondition `vote` increments
`totalVotes` by exactly one, and `changeVote` always leaves `totalVotes`
unchanged. -/
theorem totalVotes_vote_succ_changeVote_unchanged :
    (∀ (p : Poll) (i : Nat) (u : String), (∀ opt ∈ p.options, u ∉ opt.votes) →
      (vote p i u).totalVotes = p.totalVotes + 1) ∧
    ∀ (p : Poll) (f t : Nat) (u : String),
      (changeVote p f t u).totalVotes = p.totalVotes := by
  constructor
  · intro p i u _
    rfl
  · intro p f t u
    rfl

/-- Witness for C3: the first-vote precondition holds for `u1` on `pollW`,
and the theorem applies there. -/
theorem totalVotes_vote_succ_changeVote_unchanged_witness :
    (∀ opt ∈ pollW.options, "u1" ∉ opt.votes) ∧
      (vote pollW 0 "u1").totalVotes = pollW.totalVotes + 1 :=
  ⟨by decide,
    totalVotes_vote_succ_changeVote_unchanged.1 pollW 0 "u1" (by decide)⟩

/-- Claim C8: the displayed percentage agrees everywhere with the spec
formula `round(100 * votes / totalVotes)` (with the `totalVotes = 0` case
defined as `0`), and in particular a poll with `totalVotes = 0` displays `0`
for every option — there is no division by zero. -/
theorem getPercentage_eq_spec_and_zero_safe :
    (∀ votes totalVotes : Nat, getPercentage votes totalVotes = specPercentage votes totalVotes) ∧
    ∀ votes : Nat, getPercentage votes 0 = 0 := by
  constructor
  · intro votes totalVotes
    unfold getPercentage specPercentage
    rcases Nat.eq_zero_or_pos totalVotes with h | h
    · simp [h]
    · have hne : totalVotes ≠ 0 := Nat.pos_iff_ne_zero.mp h
      simp only [hne, if_false]
      ring_nf
  · intro votes
    rfl

/-! Helper lemmas evaluating `toggle` at the toggled key and at other keys. -/

theorem toggle_apply_other (m : ReactionMap) (e u x : String) (hx : x ≠ e) :
    toggle m e u x = m x := by
  simp [toggle, hx]

theorem toggle_apply_self_mem (m : ReactionMap) (e u : String)
    (hc : ((m e).getD []).contains u = true) :
    toggle m e u e =
      (if ((m e).getD []).filter (fun uid => uid != u) = [] then none
       else some (((m e).getD []).filter (fun uid => uid != u))) := by
  unfold toggle
  simp only [if_pos rfl, hc, if_true]

theorem toggle_apply_self_notMem (m : ReactionMap) (e u : String)
    (hc : ((m e).getD []).contains u = false) :
    toggle m e u e = some ((m e).getD [] ++ [u]) := by
  unfold toggle
  simp only [if_pos rfl, hc, Bool.false_eq_true, if_false]
  rw [if_pos trivial, if_neg (by simp)]

/-- Claim C6: after `toggle`, the toggled emoji is never a key holding an
empty user list — any list stored at `emoji` is nonempty, and when removing
the (present) user empties the list the key is written as `null`, i.e.
deleted. -/
theorem toggle_no_empty_key (m : ReactionMap) (e u : String) :
    (∀ l, toggle m e u e = some l → l ≠ []) ∧
    (((m e).getD []).contains u = true →
      ((m e).getD []).filter (fun uid => uid != u) = [] →
      toggle m e u e = none) := by
  constructor
  · intro l hl
    by_cases hc : ((m e).getD []).contains u = true
    · rw [toggle_apply_self_mem m e u hc] at hl
      by_cases hemp : ((m e).getD []).filter (fun uid => uid != u) = []
      · rw [if_pos hemp] at hl
        exact absurd hl (by simp)
      · rw [if_neg hemp] at hl
        injection hl with h2
        rw [← h2]
        exact hemp
    · rw [toggle_apply_self_notMem m e u (by simpa using hc)] at hl
      injection hl with h2
      rw [← h2]
      simp
  · intro hc hemp
    rw [toggle_apply_self_mem m e u hc, if_pos hemp]

/-- Concrete reaction map used in the C6 witness: `u1` is the only reactor
with emoji `a`. -/
def rmW : ReactionMap := fun x => if x = "a" then some ["u1"] else none

/-- Witness for C6: on `rmW`, toggling emoji `a` for user `u1` empties the
list, and the key is removed (second conjunct); on the resulting empty map
the toggled key holds the nonempty list `[u1]` (first conjunct). -/
theorem toggle_no_empty_key_witness :
    toggle rmW "a" "u1" "a" = none ∧ ["u1"] ≠ ([] : List String) :=
  ⟨(toggle_no_empty_key rmW "a" "u1").2 (by decide) (by decide),
    (toggle_no_empty_key (fun _ => none) "a" "u1").1 ["u1"] (by decide)⟩

/-- Claim C4: sequential double toggle by the same user on the same emoji is
the identity on the reaction map, at the map's data-model equality (same
emoji keys present, same membership of each key's user set; the model
declares per-emoji values sets with insertion order irrelevant). The
hypothesis is the C6 invariant at the toggled key: a present key never holds
an empty list. -/
theorem toggle_toggle_identity (m : ReactionMap) (e u : String)
    (hwf : m e ≠ some []) :
    ReactionMap.EquivSet (toggle (toggle m e u) e u) m := by
  intro x
  by_cases hx : x = e
  · subst hx
    by_cases hc : ((m x).getD []).contains u = true
    · have hcmem : u ∈ (m x).getD [] := by simpa using hc
      by_cases hemp : ((m x).getD []).filter (fun uid => uid != u) = []
      · -- removal empties the list: the key is deleted, then re-created as [u]
        have h1 : toggle m x u x = none := by
          rw [toggle_apply_self_mem m x u hc, if_pos hemp]
        have h2 : toggle (toggle m x u) x u x = some [u] := by
          rw [toggle_apply_self_notMem (toggle m x u) x u (by simp [h1])]
          simp [h1]
        rw [h2]
        -- every member of the original list is `u`
        have hall : ∀ y ∈ (m x).getD [], y = u := by
          intro y hy
          by_contra hne
          have : y ∈ ((m x).getD []).filter (fun uid => uid != u) := by
            simp [List.mem_filter, hy, hne]
          simp [hemp] at this
        rcases hmx : m x with _ | l
        · simp [hmx] at hcmem
        · have hlne : l ≠ [] := by
            intro h0
            exact hwf (by rw [hmx, h0])
          constructor
          · simp
          · intro v
            simp only [hmx, Option.getD_some] at hall hcmem ⊢
            simp only [Option.getD_some, List.mem_singleton]
            constructor
            · intro hv
              rw [hv]
              exact hcmem
            · intro hv
              exact hall v hv
      · -- removal leaves a nonempty list: the user is filtered out then re-appended
        have h1 : toggle m x u x = some (((m x).getD []).filter (fun uid => uid != u)) := by
          rw [toggle_apply_self_mem m x u hc, if_neg hemp]
        have hc2 : (((m x).getD []).filter (fun uid => uid != u)).contains u = false := by
          simp [List.mem_filter]
        have h2 : toggle (toggle m x u) x u x =
            some (((m x).getD []).filter (fun uid => uid != u) ++ [u]) := by
          rw [toggle_apply_self_notMem (toggle m x u) x u (by simp [h1, hc2])]
          simp [h1]
        rw [h2]
        constructor
        · rcases hmx : m x with _ | l
          · simp [hmx] at hcmem
          · simp
        · intro v
          simp only [Option.getD_some, List.mem_append, List.mem_filter,
            List.mem_singleton]
          constructor
          · rintro (⟨hv, _⟩ | hv)
            · exact hv
            · rw [hv]; exact hcmem
          · intro hv
            by_cases hvu : v = u
            · exact Or.inr hvu
            · exact Or.inl ⟨hv, by simp [hvu]⟩
    · -- the user was absent: appended then filtered back out
      have hcnot : u ∉ (m x).getD [] := by
        intro h
        exact absurd (by simpa using h) hc
      have h1 : toggle m x u x = some ((m x).getD [] ++ [u]) := by
        rw [toggle_apply_self_notMem m x u (by simpa using hc)]
      have hfilt : ((m x).getD [] ++ [u]).filter (fun uid => uid != u) = (m x).getD [] := by
        rw [List.filter_append]
        have : ((m x).getD []).filter (fun uid => uid != u) = (m x).getD [] := by
          rw [List.filter_eq_self]
          intro a ha
          simp
          intro h0
          exact absurd (h0 ▸ ha) hcnot
        rw [this]
        simp
      have h2 : toggle (toggle m x u) x u x =
          (if (m x).getD [] = [] then none else some ((m x).getD [])) := by
        rw [toggle_apply_self_mem (toggle m x u) x u (by simp [h1])]
        rw [h1]
        simp only [Option.getD_some, hfilt]
      rcases hmx : m x with _ | l
      · rw [h2]
        simp [hmx]
      · have hlne : l ≠ [] := by
          intro h0
          exact hwf (by rw [hmx, h0])
        rw [h2, hmx]
        simp [hlne]
  · -- other emoji keys pass through untouched, twice
    rw [toggle_apply_other (toggle m e u) e u x hx, toggle_apply_other m e u x hx]
    exact ⟨rfl, fun _ => Iff.rfl⟩

/-- Witness for C4 on the concrete map `rmW` (key `a` holds `[u1]`), which
satisfies the no-empty-list hypothesis at key `a`. -/
theorem toggle_toggle_identity_witness :
    rmW "a" ≠ some [] ∧
      ReactionMap.EquivSet (toggle (toggle rmW "a" "u1") "a" "u1") rmW :=
  ⟨by decide, toggle_toggle_identity rmW "a" "u1" (by decide)⟩

/-- Lookup in the store after `markAsRead`: the marked key's record gets
`read := true`, every other key reads unchanged. -/
theorem markAsRead_lookup (store : List (String × NotificationData)) (nid k : String) :
    (markAsRead store nid).lookup k =
      (if k = nid then (store.lookup k).map (fun n => { n with read := true })
       else store.lookup k) := by
  induction store with
  | nil => simp [markAsRead]
  | cons kv rest ih =>
    rcases kv with ⟨key, n⟩
    by_cases h1 : key = nid
    · by_cases h2 : k = key
      · simp [markAsRead, List.lookup_cons, h1, h2]
      · simp only [markAsRead, List.map_cons] at ih ⊢
        rw [if_pos h1]
        simp only [List.lookup_cons]
        rw [show ((k == key) = false) from beq_eq_false_iff_ne.mpr h2]
        simpa [markAsRead] using ih
    · by_cases h2 : k = key
      · have hk : k ≠ nid := by rw [h2]; exact h1
        simp [markAsRead, List.lookup_cons, h1, h2, hk]
      · simp only [markAsRead, List.map_cons] at ih ⊢
        rw [if_neg h1]
        simp only [List.lookup_cons]
        rw [show ((k == key) = false) from beq_eq_false_iff_ne.mpr h2]
        simpa [markAsRead] using ih

/-- Claim C9: `markAsRead` is idempotent — marking the same id twice gives
the same store as marking it once — and it sets `read := true` for exactly
the entry at that id, leaving every other key's record unchanged. -/
theorem markAsRead_idempotent_single (store : List (String × NotificationData))
    (nid : String) :
    markAsRead (markAsRead store nid) nid = markAsRead store nid ∧
      ∀ k, (markAsRead store nid).lookup k =
        (if k = nid then (store.lookup k).map (fun n => { n with read := true })
         else store.lookup k) := by
  constructor
  · unfold markAsRead
    rw [List.map_map]
    congr 1
    funext kv
    by_cases h : kv.1 = nid
    · simp [Function.comp, h]
    · simp [Function.comp, h]
  · intro k
    exact markAsRead_lookup store nid k

/-- Transitivity of the notification comparator preorder. -/
theorem notifLE_trans (a b c : Notification) :
    notifLE a b → notifLE b c → notifLE a c := by
  simp only [notifLE, decide_eq_true_eq]
  omega

/-- Totality of the notification comparator preorder. -/
theorem notifLE_total (a b : Notification) : notifLE a b || notifLE b a := by
  simp only [notifLE]
  rcases Int.le_total b.timestampMs a.timestampMs with h | h <;> simp [h]

/-- Claim C5: the feed built from the raw keyed map is sorted by timestamp
descending (each entry's instant is at least the next one's), and
`unreadCount` of the feed equals the number of raw entries whose `read`
field is `false`. -/
theorem buildFeed_sorted_desc_unreadCount (data : List (String × NotificationData)) :
    (buildFeed data).Pairwise (fun a b => b.timestampMs ≤ a.timestampMs) ∧
      unreadCount (buildFeed data) =
        (data.filter (fun kv => kv.2.read == false)).length := by
  constructor
  · have h := List.sorted_mergeSort notifLE_trans notifLE_total
      (data.map (fun kv => withId kv.1 kv.2))
    exact h.imp (by
      intro a b hab
      simpa [notifLE] using hab)
  · unfold unreadCount buildFeed
    rw [← List.countP_eq_length_filter, ← List.countP_eq_length_filter]
    rw [(List.mergeSort_perm (data.map (fun kv => withId kv.1 kv.2)) notifLE).countP_eq]
    rw [List.countP_map]
    have hpred : ((fun n : Notification => !n.read) ∘ fun kv : String × NotificationData =>
        withId kv.1 kv.2) = fun kv : String × NotificationData => kv.2.read == false := by
      funext kv
      rcases hb : kv.2.read
      · simp [withId, Function.comp, hb]
      · simp [withId, Function.comp, hb]
    rw [hpred]

/-! Helper lemmas about the variadic maximum fold and the first index of an
element, used for the winning-option analysis. -/

theorem le_foldl_max (l : List Nat) (b : Nat) : b ≤ l.foldl Nat.max b := by
  induction l generalizing b with
  | nil => simp
  | cons x xs ih => exact Nat.le_trans (Nat.le_max_left b x) (ih (Nat.max b x))

theorem mem_le_foldl_max (l : List Nat) : ∀ (b : Nat), ∀ x ∈ l, x ≤ l.foldl Nat.max b := by
  induction l with
  | nil =>
    intro b x hx
    simp at hx
  | cons y ys ih =>
    intro b x hx
    rcases List.mem_cons.mp hx with h0 | h0
    · subst h0
      exact Nat.le_trans (Nat.le_max_right b x) (le_foldl_max ys (Nat.max b x))
    · exact ih (Nat.max b y) x h0

theorem foldl_max_mem (l : List Nat) :
    ∀ (b : Nat), l.foldl Nat.max b = b ∨ l.foldl Nat.max b ∈ l := by
  induction l with
  | nil =>
    intro b
    left
    rfl
  | cons y ys ih =>
    intro b
    rcases ih (Nat.max b y) with h | h
    · rcases Nat.le_total b y with hby | hyb
      · right
        have hmax : Nat.max b y = y := Nat.max_eq_right hby
        rw [show (y :: ys).foldl Nat.max b = ys.foldl Nat.max (Nat.max b y) from rfl, h, hmax]
        exact List.mem_cons_self y ys
      · left
        have hmax : Nat.max b y = b := Nat.max_eq_left hyb
        rw [show (y :: ys).foldl Nat.max b = ys.foldl Nat.max (Nat.max b y) from rfl, h, hmax]
    · right
      exact List.mem_cons_of_mem y h

theorem indexOf_first (l : List Nat) (a : Nat) (h : a ∈ l) :
    l.indexOf a < l.length ∧ l.getD (l.indexOf a) 0 = a ∧
      ∀ k, k < l.indexOf a → l.getD k 0 ≠ a := by
  induction l with
  | nil => simp at h
  | cons x xs ih =>
    by_cases hx : x = a
    · have h0 : (x :: xs).indexOf a = 0 := by
        simp [List.indexOf_cons, hx]
      rw [h0]
      refine ⟨by simp, by simpa using hx, ?_⟩
      intro k hk
      exact absurd hk (Nat.not_lt_zero k)
    · have hmem : a ∈ xs := by
        rcases List.mem_cons.mp h with h0 | h0
        · exact absurd h0.symm hx
        · exact h0
      have hcons : (x :: xs).indexOf a = xs.indexOf a + 1 := by
        simp [List.indexOf_cons, hx]
      rcases ih hmem with ⟨h1, h2, h3⟩
      rw [hcons]
      refine ⟨by simpa using Nat.succ_lt_succ h1, by simpa using h2, ?_⟩
      intro k hk
      cases k with
      | zero => simpa using hx
      | succ k2 => simpa using h3 k2 (by omega)

/-- The variadic maximum of the (nonempty) counts list is attained by some
entry. -/
theorem maxVotes_mem (options : List PollOption) (h : options ≠ []) :
    maxVotes options ∈ voteCounts options := by
  have hunfold : maxVotes options = (voteCounts options).foldl Nat.max 0 := rfl
  rcases foldl_max_mem (voteCounts options) 0 with h0 | h0
  · rcases hvc : voteCounts options with _ | ⟨c, cs⟩
    · exfalso
      have hlen0 : options.length = 0 := by
        simpa [voteCounts] using congrArg List.length hvc
      exact h (List.length_eq_zero.mp hlen0)
    · have hcle : c ≤ (voteCounts options).foldl Nat.max 0 :=
        mem_le_foldl_max (voteCounts options) 0 c (by
          rw [hvc]
          exact List.mem_cons_self c cs)
      have hc0 : c = 0 := by omega
      rw [hunfold, h0, ← hc0]
      exact List.mem_cons_self c cs
  · rw [hunfold]
    exact h0

/-- Characterisation of `getWinningOptionIndex` on a nonempty options list:
it is the non-negative index of the first (lowest-index) option attaining
the maximum vote count. -/
theorem winning_index_spec (options : List PollOption) (hne : options ≠ []) :
    0 ≤ getWinningOptionIndex options ∧
      (getWinningOptionIndex options).toNat < options.length ∧
      (voteCounts options).getD (getWinningOptionIndex options).toNat 0 = maxVotes options ∧
      ∀ k, k < (getWinningOptionIndex options).toNat →
        (voteCounts options).getD k 0 < maxVotes options := by
  have hlen : options.length ≠ 0 := by simpa [List.length_eq_zero] using hne
  have hmem := maxVotes_mem options hne
  rcases indexOf_first (voteCounts options) (maxVotes options) hmem with ⟨h1, h2, h3⟩
  have hw : getWinningOptionIndex options =
      ((voteCounts options).indexOf (maxVotes options) : ℤ) := by
    unfold getWinningOptionIndex
    rw [if_neg hlen]
  have hvlen : (voteCounts options).length = options.length := by
    simp [voteCounts]
  rw [hw]
  have htn : (((voteCounts options).indexOf (maxVotes options) : ℤ)).toNat =
      (voteCounts options).indexOf (maxVotes options) := Int.toNat_natCast _
  refine ⟨Int.natCast_nonneg _, ?_, ?_, ?_⟩
  · rw [htn, ← hvlen]
    exact h1
  · rw [htn]
    exact h2
  · intro k hk
    rw [htn] at hk
    have hklen : k < (voteCounts options).length := Nat.lt_trans hk h1
    have hle : (voteCounts options).getD k 0 ≤ maxVotes options :=
      mem_le_foldl_max (voteCounts options) 0 _ (getD_mem _ _ _ hklen)
    exact Nat.lt_of_le_of_ne hle (h3 k hk)

/-- Claim C7: when at least two options attain the (nonzero) maximum vote
count, `getWinningOptionIndex` returns the lowest index attaining the
maximum — it attains the maximum, every lower index is strictly below the
maximum, and in particular it is at most the lower of the two tied
indices. -/
theorem winning_tie_breaks_to_lowest (options : List PollOption) (i j : Nat)
    (hij : i < j) (hj : j < options.length)
    (hi_max : (voteCounts options).getD i 0 = maxVotes options)
    (hj_max : (voteCounts options).getD j 0 = maxVotes options)
    (hpos : 0 < maxVotes options) :
    0 ≤ getWinningOptionIndex options ∧
      (getWinningOptionIndex options).toNat ≤ i ∧
      (voteCounts options).getD (getWinningOptionIndex options).toNat 0 = maxVotes options ∧
      ∀ k, k < (getWinningOptionIndex options).toNat →
        (voteCounts options).getD k 0 < maxVotes options := by
  have hne : options ≠ [] := by
    intro h0
    rw [h0] at hj
    simp at hj
  rcases winning_index_spec options hne with ⟨ha, hb, hc, hd⟩
  refine ⟨ha, ?_, hc, hd⟩
  by_contra hgt
  push_neg at hgt
  exact absurd hi_max (Nat.ne_of_lt (hd i hgt))

/-- Concrete two-way tie used in the C7 witness: both options hold exactly
one vote. -/
def optsT : List PollOption :=
  [{ text := "park", votes := ["x1"] }, { text := "cinema", votes := ["y1"] }]

/-- Witness for C7 on the concrete tie `optsT`: indices `0 < 1` both attain
the maximum count `1 > 0`, and the theorem applies there. -/
theorem winning_tie_breaks_to_lowest_witness :
    ((voteCounts optsT).getD 0 0 = maxVotes optsT ∧
      (voteCounts optsT).getD 1 0 = maxVotes optsT ∧
      0 < maxVotes optsT) ∧
    (0 ≤ getWinningOptionIndex optsT ∧
      (getWinningOptionIndex optsT).toNat ≤ 0 ∧
      (voteCounts optsT).getD (getWinningOptionIndex optsT).toNat 0 = maxVotes optsT ∧
      ∀ k, k < (getWinningOptionIndex optsT).toNat →
        (voteCounts optsT).getD k 0 < maxVotes optsT) :=
  ⟨⟨by decide, by decide, by decide⟩,
    winning_tie_breaks_to_lowest optsT 0 1 (by decide) (by decide) (by decide)
      (by decide) (by decide)⟩

/-- Claim C10: `getWinningOptionIndex` is total — an empty options list
gives `-1`; a nonempty list in which every option has zero votes gives `0`;
and in general, on a nonempty list it returns the lowest index attaining the
maximum vote count, even when that maximum is zero. -/
theorem getWinningOptionIndex_total (options : List PollOption) :
    (options = [] → getWinningOptionIndex options = -1) ∧
      (options ≠ [] → (∀ opt ∈ options, opt.votes.length = 0) →
        getWinningOptionIndex options = 0) ∧
      (options ≠ [] →
        0 ≤ getWinningOptionIndex options ∧
          (voteCounts options).getD (getWinningOptionIndex options).toNat 0 =
            maxVotes options ∧
          ∀ k, k < (getWinningOptionIndex options).toNat →
            (voteCounts options).getD k 0 < maxVotes options) := by
  refine ⟨?_, ?_, ?_⟩
  · intro h
    simp [getWinningOptionIndex, h]
  · intro hne hzero
    rcases winning_index_spec options hne with ⟨ha, hb, hc, hd⟩
    have hall : ∀ c ∈ voteCounts options, c = 0 := by
      intro c hcmem
      rcases List.mem_map.mp hcmem with ⟨opt, hopt, hceq⟩
      rw [← hceq]
      exact hzero opt hopt
    have hmax0 : maxVotes options = 0 := hall _ (maxVotes_mem options hne)
    have htoNat : (getWinningOptionIndex options).toNat = 0 := by
      by_contra h0
      have h1 : 0 < (getWinningOptionIndex options).toNat := Nat.pos_of_ne_zero h0
      have h2 := hd 0 h1
      have h3 : (voteCounts options).getD 0 0 = 0 := by
        rcases hvc : voteCounts options with _ | ⟨c, cs⟩
        · simp
        · simpa using hall c (by
            rw [hvc]
            exact List.mem_cons_self c cs)
      omega
    omega
  · intro hne
    rcases winning_index_spec options hne with ⟨ha, _, hc, hd⟩
    exact ⟨ha, hc, hd⟩

/-- Concrete all-zero options list used in the C10 witness. -/
def optsZ : List PollOption :=
  [{ text := "park", votes := [] }, { text := "cinema", votes := [] }]

/-- Witness for C10: the theorem applies to the empty options list (giving
`-1`), to the concrete all-zero list `optsZ` (giving index `0`), and its
general clause applies to `optsZ` as well. -/
theorem getWinningOptionIndex_total_witness :
    getWinningOptionIndex [] = -1 ∧
      getWinningOptionIndex optsZ = 0 ∧
      0 ≤ getWinningOptionIndex optsZ :=
  ⟨(getWinningOptionIndex_total []).1 rfl,
    (getWinningOptionIndex_total optsZ).2.1 (by decide) (by decide),
    ((getWinningOptionIndex_total optsZ).2.2 (by decide)).1⟩

end PlanOutings
